import Mathlib

/-!
Verification of nmtpytorch's ensemble decoding orchestrator
(`src/nmtpytorch/translator.py`, class `Translator`).

The development shallowly embeds the orchestrator: Python strings become
`String`, Python lists become `List`, exceptions become `Option`/`none`,
the filesystem becomes a map from paths to file contents, and the external
collaborators (the search procedure, the filter registry, model internals)
become function parameters.  Wall-clock time is an explicit input.
-/

namespace Nmtpy

/-! String utilities mirroring the exact Python primitives the source uses. -/

/-- Characters of the decimal rendering of a natural number, exactly what
Python's format specifier produces for a nonnegative `int`.  The first
argument is fuel making the recursion structural; any fuel above the number
itself is enough. -/
def toDecDigitsAux : Nat → Nat → List Char
  | 0, _ => []
  | fuel + 1, n =>
    if n < 10 then [Nat.digitChar n]
    else toDecDigitsAux fuel (n / 10) ++ [Nat.digitChar (n % 10)]

/-- Decimal rendering of a natural number as a string (Python `str(n)`). -/
def natToDec (n : Nat) : String := ⟨toDecDigitsAux (n + 1) n⟩

/-- Value of a decimal digit string, used to invert `toDecDigitsAux`. -/
def decVal (l : List Char) : Nat :=
  l.foldl (fun a c => 10 * a + (c.toNat - 48)) 0

/-- Python `s.split(c)` for a one-character separator: keeps empty fields,
and the empty string yields one empty field. -/
def splitCharAux (c : Char) : List Char → List (List Char)
  | [] => [[]]
  | x :: xs =>
    if x = c then [] :: splitCharAux c xs
    else
      match splitCharAux c xs with
      | [] => [[x]]
      | y :: ys => (x :: y) :: ys

/-- Python `s.split(c)` on strings. -/
def pySplit (s : String) (c : Char) : List String :=
  (splitCharAux c s.data).map (fun l => ⟨l⟩)

/-- Python `s.split(c, 1)`: split at the first occurrence of the separator
only; `none` when the separator does not occur, in which case the two-place
destructuring assignment in the source raises `ValueError`. -/
def splitFirstAux (c : Char) : List Char → Option (List Char × List Char)
  | [] => none
  | x :: xs =>
    if x = c then some ([], xs)
    else (splitFirstAux c xs).map (fun p => (x :: p.1, p.2))

/-- String-level wrapper for `splitFirstAux`. -/
def pySplitFirst (s : String) (c : Char) : Option (String × String) :=
  (splitFirstAux c s.data).map (fun p => (⟨p.1⟩, ⟨p.2⟩))

/-- Python `d[k] = v` on an insertion-ordered dictionary represented as an
association list: an existing key keeps its position and is overwritten, a
new key is appended at the end. -/
def dictInsert {α : Type} (d : List (String × α)) (k : String) (v : α) :
    List (String × α) :=
  if d.any (fun p => p.1 == k) then
    d.map (fun p => if p.1 == k then (k, v) else p)
  else d ++ [(k, v)]

/-- Two strings are equal when their character lists are. -/
theorem str_data_eq {s t : String} (h : s.data = t.data) : s = t := by
  cases s
  cases t
  exact congrArg String.mk h

/-- Characters of a decimal digit, for digits below ten. -/
theorem digitChar_toNat (n : Nat) (h : n < 10) : (Nat.digitChar n).toNat = 48 + n := by
  revert h
  revert n
  decide

/-- Appending one character to a digit string shifts its value by one
decimal place. -/
theorem decVal_append (l : List Char) (c : Char) :
    decVal (l ++ [c]) = 10 * decVal l + (c.toNat - 48) := by
  simp [decVal, List.foldl_append]

/-- The decimal rendering evaluates back to the rendered number whenever the
fuel is sufficient. -/
theorem decVal_toDecDigitsAux : ∀ fuel n, n < fuel →
    decVal (toDecDigitsAux fuel n) = n := by
  intro fuel
  induction fuel with
  | zero => intro n h; exact absurd h (Nat.not_lt_zero n)
  | succ fuel ih =>
    intro n h
    by_cases h10 : n < 10
    · simp only [toDecDigitsAux, if_pos h10]
      simp [decVal, digitChar_toNat n h10]
    · have hn : 0 < n := by omega
      have hdiv : n / 10 < fuel := by
        have := Nat.div_lt_self hn (by omega : 1 < 10)
        omega
      simp only [toDecDigitsAux, if_neg h10]
      rw [decVal_append, ih (n / 10) hdiv,
        digitChar_toNat (n % 10) (Nat.mod_lt n (by omega))]
      omega

/-- The decimal rendering is injective. -/
theorem toDecDigits_inj {m n : Nat}
    (h : toDecDigitsAux (m + 1) m = toDecDigitsAux (n + 1) n) : m = n := by
  have hm := decVal_toDecDigitsAux (m + 1) m (by omega)
  have hn := decVal_toDecDigitsAux (n + 1) n (by omega)
  rw [h] at hm
  omega

/-! Embedding of `Translator` (translator.py).  Run-scoped configuration is
the keyword-argument record stored by `self.__dict__.update(kwargs)`; model
instances keep the attributes the orchestrator reads. -/

/-- The mutable `opts.data` section of the primary instance, an
insertion-ordered dictionary; the orchestrator only ever writes the
`new_set` key, whose value is a dictionary from stream keys to file paths. -/
abbrev DataOptions := List (String × List (String × String))

/-- Run-scoped keyword arguments consumed by `Translator` (see bin/nmtpy):
beam width, batch size, maximum decode length, the two avoidance flags, the
filter-disable flag, the base output path, and the two split-selection
inputs. -/
structure RunConfig where
  beam_size : Nat
  batch_size : Nat
  max_len : Nat
  avoid_double : Bool
  avoid_unk : Bool
  disable_filters : Bool
  output : String
  splits : String
  source : String

/-- The attributes of a loaded model instance that `Translator` reads.
`eval_filters` stands for `opts.train['eval_filters']` (a hashable
configuration value, embedded as its string form), `opts_data` for the
mutable `opts.data` section, and `get_loader` for the pair of calls
`load_data(split)` then `datasets[split].get_iterator(batch_size,
only_source)`, with `none` modelling an exception raised by either step.
`V` is the type of vocabularies, `L` of batch iterators. -/
structure ModelInstance (V L : Type) where
  eval_filters : String
  n_trg_vocab : Nat
  sl : String
  trg_vocab : V
  opts_data : DataOptions
  get_loader : String → Nat → Bool → Option L

/-- Interface of the external search procedure `beam_search(model, loader,
vocab, beam_size, max_len, avoid_double, avoid_unk)`; `none` models a raised
exception. -/
abbrev BeamSearch (V L : Type) :=
  ModelInstance V L → L → V → Nat → Nat → Bool → Bool → Option (List String)

/-- Lines 82-88, `Translator.sanity_check`: both `assert`s hold exactly when
this returns `true`.  Python `set` cardinality is the number of distinct
elements, i.e. the length after `dedup`. -/
def sanity_check {V L : Type} (instances : List (ModelInstance V L)) : Bool :=
  decide (((instances.map (fun i => i.eval_filters)).dedup).length < 2) &&
  decide (((instances.map (fun i => i.n_trg_vocab)).dedup).length = 1)

/-- Modelled from the spec: the repository's `FilterChain`
(`utils/filterchain.py`) is not part of the given source.  Per the spec, the
chain is built from the declared filter identifiers (the comma-separated
components of the `eval_filters` value) and is an ordered pipeline of named
total text transforms applied to each hypothesis, 1:1 and order-preserving.
`registry` gives the transform named by each identifier. -/
def FilterChain (registry : String → String → String) (eval_filters : String)
    (hyps : List String) : List String :=
  hyps.map (fun h => (pySplit eval_filters ',').foldl (fun s ident => registry ident s) h)

/-- Lines 56-65 of `Translator.__init__`: the post-processing filter is the
identity when `disable_filters` is set or the `eval_filters` value is falsy
(empty), and the filter chain otherwise. -/
def selectFilter (registry : String → String → String) (disable_filters : Bool)
    (eval_filters : String) (hyps : List String) : List String :=
  if disable_filters || eval_filters == "" then hyps
  else FilterChain registry eval_filters hyps

/-- The `elif self.source:` branch body, lines 72-78: split the source
specification on commas, split each `key:path` pair at the first colon, and
accumulate the pairs into a dictionary; `none` models the `ValueError`
raised by a pair without a colon. -/
def parseSource (source : String) : Option (List (String × String)) :=
  (pySplit source ',').foldlM
    (fun d ds => (pySplitFirst ds ':').map (fun kv => dictInsert d kv.1 kv.2)) []

/-- Lines 67-80 of `Translator.__init__`: split-list resolution.  `data` is
the primary instance's `opts.data` section; the result pairs the resolved
split list with its possibly updated value.  When neither input is supplied
the attribute keeps its falsy value and the loop in `__call__` translates
nothing, modelled as the empty split list. -/
def resolveSplits (splits source : String) (data : DataOptions) :
    Option (List String × DataOptions) :=
  if splits ≠ "" then some (pySplit splits ',', data)
  else if source ≠ "" then
    (parseSource source).map (fun d => (["new"], dictInsert data "new_set" d))
  else some ([], data)

/-- The state a successfully constructed `Translator` carries into
`__call__`: the instance list (primary first), the selected filter, and the
resolved split list. -/
structure TranslatorState (V L : Type) where
  instances : List (ModelInstance V L)
  filter : List String → List String
  splits : List String

/-- Replace the primary (first) instance's `opts.data` section, the one
in-place mutation `__init__` performs. -/
def setPrimaryData {V L : Type} (instances : List (ModelInstance V L))
    (data : DataOptions) : List (ModelInstance V L) :=
  match instances with
  | [] => []
  | i0 :: rest => { i0 with opts_data := data } :: rest

/-- Lines 53-80 of `Translator.__init__`, after the checkpoints are loaded:
the sanity check runs first (a failed `assert` aborts construction), then
the filter is selected from the primary instance's `eval_filters`, then the
split list is resolved, possibly registering the ad-hoc data set on the
primary instance.  `none` models an aborted construction.  The inner empty
case is unreachable because the sanity check already rejects an empty
ensemble. -/
def initTranslator {V L : Type} (registry : String → String → String)
    (cfg : RunConfig) (instances : List (ModelInstance V L)) :
    Option (TranslatorState V L) :=
  if sanity_check instances = true then
    match instances with
    | [] => none
    | i0 :: rest =>
      match resolveSplits cfg.splits cfg.source i0.opts_data with
      | none => none
      | some (splits, data) =>
        some { instances := setPrimaryData (i0 :: rest) data,
               filter := selectFilter registry cfg.disable_filters i0.eval_filters,
               splits := splits }
  else none

/-- Lines 90-121, `Translator.translate`: fetch the primary instance (the
FIXME at line 104; an empty list would raise `IndexError`), load the data
and build the iterator from it, run the external search, log throughput
(Python float division by an elapsed time of zero raises
`ZeroDivisionError`, so that case aborts), and return the filtered
hypotheses together with the logged sentences-per-second value.  Elapsed
wall-clock time is an explicit input. -/
def translate {V L : Type} (bs : BeamSearch V L) (cfg : RunConfig)
    (filter : List String → List String)
    (instances : List (ModelInstance V L)) (split : String) (elapsed : ℚ) :
    Option (List String × ℤ) :=
  match instances with
  | [] => none
  | inst :: _ =>
    match inst.get_loader split cfg.batch_size true with
    | none => none
    | some loader =>
      match bs inst loader inst.trg_vocab cfg.beam_size cfg.max_len
          cfg.avoid_double cfg.avoid_unk with
      | none => none
      | some hyps =>
        if elapsed = 0 then none
        else some (filter hyps, Int.floor ((hyps.length : ℚ) / elapsed))

/-- The filesystem, as a map from paths to file contents. -/
abbrev FS := String → Option String

/-- Opening a path in mode `w` and writing `content` replaces whatever the
path previously held and touches no other path. -/
def writeFile (fs : FS) (path content : String) : FS :=
  fun p => if p = path then some content else fs p

/-- Lines 129-138 of `Translator.dump`: output path derivation. -/
def dumpPath (output split : String) (beam_size : Nat)
    (avoid_double avoid_unk : Bool) : String :=
  let suffix := ".beam" ++ natToDec beam_size
  let suffix := if avoid_double then suffix ++ ".nodbl" else suffix
  let suffix := if avoid_unk then suffix ++ ".nounk" else suffix
  if split = "new" then output ++ suffix else output ++ "." ++ split ++ suffix

/-- The output-path naming scheme as the spec words it (section 4.6): the
base output path, then a dot and the split name unless the split is the
literal `new`, then the beam suffix, then the optional avoidance markers. -/
def specOutputPath (base split : String) (beam : Nat)
    (avoid_double avoid_unk : Bool) : String :=
  base ++ (if split = "new" then "" else "." ++ split) ++
    (".beam" ++ natToDec beam ++ (if avoid_double then ".nodbl" else "") ++
      (if avoid_unk then ".nounk" else ""))

/-- Lines 140-142 of `Translator.dump`: the file body produced by writing
each hypothesis followed by a newline, in list order. -/
def dumpContent (hyps : List String) : String :=
  hyps.foldl (fun acc line => acc ++ (line ++ "\n")) ""

/-- Lines 123-142, `Translator.dump`: derive the output path and overwrite
it with one line per hypothesis. -/
def dump (cfg : RunConfig) (fs : FS) (hyps : List String) (split : String) : FS :=
  writeFile fs (dumpPath cfg.output split cfg.beam_size cfg.avoid_double cfg.avoid_unk)
    (dumpContent hyps)

/-- Lines 144-149, `Translator.__call__`: translate and dump each resolved
split in order; a raised exception (modelled by `translate` returning
`none`) aborts the loop, leaving the files written so far and no others.
The returned flag records whether the whole run completed. -/
def runSplits {V L : Type} (bs : BeamSearch V L) (cfg : RunConfig)
    (filter : List String → List String) (instances : List (ModelInstance V L))
    (elapsedOf : String → ℚ) : List String → FS → FS × Bool
  | [], fs => (fs, true)
  | s :: rest, fs =>
    match translate bs cfg filter instances s (elapsedOf s) with
    | none => (fs, false)
    | some (hyps, _) => runSplits bs cfg filter instances elapsedOf rest (dump cfg fs hyps s)

/-- Whether translating one split succeeds. -/
def transOk {V L : Type} (bs : BeamSearch V L) (cfg : RunConfig)
    (filter : List String → List String) (instances : List (ModelInstance V L))
    (elapsedOf : String → ℚ) (s : String) : Bool :=
  (translate bs cfg filter instances s (elapsedOf s)).isSome

/-- The dumps of the given splits in order, skipping failed ones; used to
state what `runSplits` writes. -/
def applyDumps {V L : Type} (bs : BeamSearch V L) (cfg : RunConfig)
    (filter : List String → List String) (instances : List (ModelInstance V L))
    (elapsedOf : String → ℚ) (splits : List String) (fs : FS) : FS :=
  splits.foldl (fun acc s =>
    match translate bs cfg filter instances s (elapsedOf s) with
    | some (hyps, _) => dump cfg acc hyps s
    | none => acc) fs

/-- The whole run as driven by bin/nmtpy: construct the `Translator`, then
call it; `none` models an aborted construction. -/
def runTranslator {V L : Type} (bs : BeamSearch V L)
    (registry : String → String → String) (cfg : RunConfig)
    (instances : List (ModelInstance V L)) (elapsedOf : String → ℚ)
    (fs : FS) : Option (FS × Bool) :=
  match initTranslator registry cfg instances with
  | none => none
  | some st => some (runSplits bs cfg st.filter st.instances elapsedOf st.splits fs)


/-! Properties of the output path derivation (claims about `dump`). -/

/-- Characters of the beam-width marker. -/
def beamTag : List Char := ['.', 'b', 'e', 'a', 'm']

/-- Characters of the repeat-avoidance marker. -/
def nodblTag : List Char := ['.', 'n', 'o', 'd', 'b', 'l']

/-- Characters of the unknown-avoidance marker. -/
def nounkTag : List Char := ['.', 'n', 'o', 'u', 'n', 'k']

/-- Character list of the literal beam marker. -/
theorem data_beam : (".beam" : String).data = beamTag := by decide

/-- Character list of the literal repeat-avoidance marker. -/
theorem data_nodbl : (".nodbl" : String).data = nodblTag := by decide

/-- Character list of the literal unknown-avoidance marker. -/
theorem data_nounk : (".nounk" : String).data = nounkTag := by decide

/-- Character list of the literal dot. -/
theorem data_dot : ("." : String).data = ['.'] := by decide

/-- Character list of a rendered number. -/
theorem natToDec_data (n : Nat) : (natToDec n).data = toDecDigitsAux (n + 1) n := rfl

/-- Normal form of the derived output path, as a character list. -/
theorem dumpPath_data (o s : String) (B : Nat) (d u : Bool) :
    (dumpPath o s B d u).data =
      o.data ++ ((if s = "new" then [] else '.' :: s.data) ++
        (beamTag ++ (toDecDigitsAux (B + 1) B ++
          ((if d then nodblTag else []) ++ (if u then nounkTag else []))))) := by
  by_cases hs : s = "new" <;> cases d <;> cases u <;>
    simp [dumpPath, hs, String.data_append, natToDec_data, data_beam, data_nodbl,
      data_nounk, data_dot, beamTag, nodblTag, nounkTag]

/-- Normal form of the spec's output path, as a character list. -/
theorem specOutputPath_data (o s : String) (B : Nat) (d u : Bool) :
    (specOutputPath o s B d u).data =
      o.data ++ ((if s = "new" then [] else '.' :: s.data) ++
        (beamTag ++ (toDecDigitsAux (B + 1) B ++
          ((if d then nodblTag else []) ++ (if u then nounkTag else []))))) := by
  by_cases hs : s = "new" <;> cases d <;> cases u <;>
    simp [specOutputPath, hs, String.data_append, natToDec_data, data_beam, data_nodbl,
      data_nounk, data_dot, beamTag, nodblTag, nounkTag]

/-- C1: for every run configuration and split name, the output path written
by `dump` equals the base output path, followed by a dot and the split name
unless the split name is the literal `new`, followed by the beam-width
suffix, then the repeat-avoidance marker exactly when that flag is set,
then the unknown-avoidance marker exactly when that flag is set. -/
theorem dump_path_matches_spec (output split : String) (beam : Nat)
    (avoid_double avoid_unk : Bool) :
    dumpPath output split beam avoid_double avoid_unk =
      specOutputPath output split beam avoid_double avoid_unk := by
  apply str_data_eq
  rw [dumpPath_data, specOutputPath_data]

/-- C4: the derived output path is a pure, deterministic function of the
base output path, split name, beam width and the two avoidance flags, and
changing any one of the four varying fields while holding the others fixed
changes the path. -/
theorem output_path_pure_and_injective (o o2 s s2 : String) (B B2 : Nat)
    (d d2 u u2 : Bool) :
    (o = o2 → s = s2 → B = B2 → d = d2 → u = u2 →
        dumpPath o s B d u = dumpPath o2 s2 B2 d2 u2) ∧
    (s ≠ s2 → dumpPath o s B d u ≠ dumpPath o s2 B d u) ∧
    (B ≠ B2 → dumpPath o s B d u ≠ dumpPath o s B2 d u) ∧
    (d ≠ d2 → dumpPath o s B d u ≠ dumpPath o s B d2 u) ∧
    (u ≠ u2 → dumpPath o s B d u ≠ dumpPath o s B d u2) := by
  refine ⟨?_, ?_, ?_, ?_, ?_⟩
  · intro h1 h2 h3 h4 h5
    subst h1; subst h2; subst h3; subst h4; subst h5
    rfl
  · intro hne heq
    have hd := congrArg String.data heq
    rw [dumpPath_data, dumpPath_data] at hd
    have h1 := List.append_cancel_left hd
    have h2 := List.append_cancel_right h1
    by_cases hs : s = "new" <;> by_cases hs2 : s2 = "new"
    · exact hne (hs.trans hs2.symm)
    · rw [if_pos hs, if_neg hs2] at h2
      simp at h2
    · rw [if_neg hs, if_pos hs2] at h2
      simp at h2
    · rw [if_neg hs, if_neg hs2] at h2
      simp only [List.cons.injEq] at h2
      exact hne (str_data_eq h2.2)
  · intro hne heq
    have hd := congrArg String.data heq
    rw [dumpPath_data, dumpPath_data] at hd
    have h1 := List.append_cancel_left hd
    have h2 := List.append_cancel_left h1
    have h3 := List.append_cancel_left h2
    have h4 := List.append_cancel_right h3
    exact hne (toDecDigits_inj h4)
  · intro hne heq
    have hd := congrArg String.data heq
    rw [dumpPath_data, dumpPath_data] at hd
    have h1 := List.append_cancel_left hd
    have h2 := List.append_cancel_left h1
    have h3 := List.append_cancel_left h2
    have h4 := List.append_cancel_left h3
    have h5 := List.append_cancel_right h4
    cases d <;> cases d2
    · exact hne rfl
    · simp [nodblTag] at h5
    · simp [nodblTag] at h5
    · exact hne rfl
  · intro hne heq
    have hd := congrArg String.data heq
    rw [dumpPath_data, dumpPath_data] at hd
    have h1 := List.append_cancel_left hd
    have h2 := List.append_cancel_left h1
    have h3 := List.append_cancel_left h2
    have h4 := List.append_cancel_left h3
    have h5 := List.append_cancel_left h4
    cases u <;> cases u2
    · exact hne rfl
    · simp [nounkTag] at h5
    · simp [nounkTag] at h5
    · exact hne rfl

/-- Witness for C4 at concrete inputs. -/
theorem output_path_pure_and_injective_witness :
    dumpPath "out" "test" 2 false false = dumpPath "out" "test" 2 false false ∧
    dumpPath "out" "test" 2 false false ≠ dumpPath "out" "val" 2 false false ∧
    dumpPath "out" "test" 2 false false ≠ dumpPath "out" "test" 3 false false ∧
    dumpPath "out" "test" 2 false false ≠ dumpPath "out" "test" 2 true false ∧
    dumpPath "out" "test" 2 false false ≠ dumpPath "out" "test" 2 false true := by
  have h := output_path_pure_and_injective "out" "out" "test" "val" 2 3 false true false true
  exact ⟨(output_path_pure_and_injective "out" "out" "test" "test" 2 2 false false
      false false).1 rfl rfl rfl rfl rfl,
    h.2.1 (by decide), h.2.2.1 (by decide), h.2.2.2.1 (by decide),
    h.2.2.2.2 (by decide)⟩

/-! Properties of the ensemble sanity check and the decoding loop. -/

/-- A nonempty list has exactly one distinct element iff all its elements
are equal. -/
theorem dedup_length_one_iff {α : Type} [DecidableEq α] (l : List α)
    (h : l ≠ []) : l.dedup.length = 1 ↔ ∀ a ∈ l, ∀ b ∈ l, a = b := by
  constructor
  · intro h1 a ha b hb
    obtain ⟨x, hx⟩ := List.length_eq_one.mp h1
    have hax : a ∈ l.dedup := List.mem_dedup.mpr ha
    have hbx : b ∈ l.dedup := List.mem_dedup.mpr hb
    rw [hx] at hax hbx
    simp at hax hbx
    rw [hax, hbx]
  · intro hall
    obtain ⟨x, xs, rfl⟩ := List.exists_cons_of_ne_nil h
    cases hdl : (x :: xs).dedup with
    | nil =>
      have hx : x ∈ (x :: xs).dedup := List.mem_dedup.mpr (List.mem_cons_self x xs)
      rw [hdl] at hx
      simp at hx
    | cons a t =>
      cases t with
      | nil => rfl
      | cons b t2 =>
        have hnd : ((x :: xs).dedup).Nodup := List.nodup_dedup _
        rw [hdl] at hnd
        have ha : a ∈ x :: xs := List.mem_dedup.mp (by rw [hdl]; exact List.mem_cons_self _ _)
        have hb : b ∈ x :: xs := List.mem_dedup.mp (by rw [hdl]; simp)
        have hab : a = b := hall a ha b hb
        have hne2 : a ≠ b := by
          have hcons := List.nodup_cons.mp hnd
          exact fun he => hcons.1 (he ▸ List.mem_cons_self b t2)
        exact absurd hab hne2

/-- All elements of a mapped list agree iff the function agrees on all
elements of the original list. -/
theorem forall_eq_map_iff {α β : Type} (f : α → β) (l : List α) :
    (∀ a ∈ l.map f, ∀ b ∈ l.map f, a = b) ↔ ∀ x ∈ l, ∀ y ∈ l, f x = f y := by
  constructor
  · intro h x hx y hy
    exact h _ (List.mem_map_of_mem f hx) _ (List.mem_map_of_mem f hy)
  · intro h a ha b hb
    obtain ⟨x, hx, rfl⟩ := List.mem_map.mp ha
    obtain ⟨y, hy, rfl⟩ := List.mem_map.mp hb
    exact h x hx y hy

/-- The sanity check of a nonempty ensemble passes iff the instances agree
on `eval_filters` and on target-vocabulary size. -/
theorem sanity_check_true_iff {V L : Type} (instances : List (ModelInstance V L))
    (hne : instances ≠ []) :
    sanity_check instances = true ↔
      ((∀ a ∈ instances, ∀ b ∈ instances, a.eval_filters = b.eval_filters) ∧
       (∀ a ∈ instances, ∀ b ∈ instances, a.n_trg_vocab = b.n_trg_vocab)) := by
  have hmF : instances.map (fun i => i.eval_filters) ≠ [] := by
    simpa using hne
  have hmV : instances.map (fun i => i.n_trg_vocab) ≠ [] := by
    simpa using hne
  have hdF : (instances.map (fun i => i.eval_filters)).dedup ≠ [] := by
    simpa [List.dedup_eq_nil] using hmF
  have posF : 0 < (instances.map (fun i => i.eval_filters)).dedup.length :=
    List.length_pos.mpr hdF
  rw [sanity_check, Bool.and_eq_true, decide_eq_true_eq, decide_eq_true_eq]
  rw [show ((instances.map (fun i => i.eval_filters)).dedup.length < 2) ↔
      ((instances.map (fun i => i.eval_filters)).dedup.length = 1) from by omega]
  rw [dedup_length_one_iff _ hmF, dedup_length_one_iff _ hmV]
  rw [forall_eq_map_iff, forall_eq_map_iff]

/-- C2: the sanity check accepts a non-empty ensemble iff all instances
share one `eval_filters` configuration and all share one target-vocabulary
size; an ensemble failing either check is rejected fatally at construction,
so no decoding (and no run) can start. -/
theorem sanity_check_accepts_iff_compatible {V L : Type}
    (bs : BeamSearch V L) (registry : String → String → String)
    (cfg : RunConfig) (instances : List (ModelInstance V L))
    (elapsedOf : String → ℚ) (fs : FS) (hne : instances ≠ []) :
    (sanity_check instances = true ↔
      ((∀ a ∈ instances, ∀ b ∈ instances, a.eval_filters = b.eval_filters) ∧
       (∀ a ∈ instances, ∀ b ∈ instances, a.n_trg_vocab = b.n_trg_vocab))) ∧
    (sanity_check instances = false →
      initTranslator registry cfg instances = none ∧
      runTranslator bs registry cfg instances elapsedOf fs = none) := by
  refine ⟨sanity_check_true_iff instances hne, ?_⟩
  intro hf
  have hinit : initTranslator registry cfg instances = none := by
    simp [initTranslator, hf]
  exact ⟨hinit, by simp [runTranslator, hinit]⟩

/-- Concrete model instance used by the witnesses. -/
def sampleInstance : ModelInstance Unit Unit :=
  { eval_filters := "", n_trg_vocab := 3, sl := "en", trg_vocab := (),
    opts_data := [], get_loader := fun _ _ _ => some () }

/-- A second, different concrete model instance. -/
def sampleInstance2 : ModelInstance Unit Unit :=
  { eval_filters := "", n_trg_vocab := 3, sl := "de", trg_vocab := (),
    opts_data := [], get_loader := fun _ _ _ => none }

/-- Concrete search procedure used by the witnesses. -/
def sampleBS : BeamSearch Unit Unit := fun _ _ _ _ _ _ _ => some ["hyp"]

/-- Concrete run configuration used by the witnesses. -/
def sampleCfg : RunConfig :=
  { beam_size := 2, batch_size := 4, max_len := 10, avoid_double := false,
    avoid_unk := false, disable_filters := false, output := "out",
    splits := "test", source := "" }

/-- Concrete filter registry used by the witnesses. -/
def sampleRegistry : String → String → String := fun _ s => s

/-- Concrete run configuration supplying both split-selection inputs. -/
def sampleCfgBoth : RunConfig := { sampleCfg with source := "src:adhoc.txt" }

/-- Witness for C2 at a concrete one-instance ensemble. -/
theorem sanity_check_accepts_iff_compatible_witness :
    sanity_check [sampleInstance] = true := by
  have h := (sanity_check_accepts_iff_compatible sampleBS sampleRegistry sampleCfg
    [sampleInstance] (fun _ => 1) (fun _ => none) (by simp)).1
  refine h.mpr ⟨?_, ?_⟩ <;>
    · intro a ha b hb
      simp at ha hb
      rw [ha, hb]

/-- C5: decoding depends only on the primary (first) ensemble instance:
two ensembles with equal first instances produce identical `translate`
results under the same run configuration, search procedure, filter and
elapsed time, whatever the non-primary instances are. -/
theorem translate_uses_primary_instance_only {V L : Type} (bs : BeamSearch V L)
    (cfg : RunConfig) (filter : List String → List String)
    (l1 l2 : List (ModelInstance V L)) (split : String) (elapsed : ℚ)
    (h : l1.head? = l2.head?) :
    translate bs cfg filter l1 split elapsed =
      translate bs cfg filter l2 split elapsed := by
  cases l1 with
  | nil =>
    cases l2 with
    | nil => rfl
    | cons b t => simp at h
  | cons a t =>
    cases l2 with
    | nil => simp at h
    | cons b t2 =>
      simp at h
      subst h
      rfl

/-- Witness for C5: appending a second instance does not change the result. -/
theorem translate_uses_primary_instance_only_witness :
    translate sampleBS sampleCfg (fun hyps => hyps) [sampleInstance] "test" 1 =
      translate sampleBS sampleCfg (fun hyps => hyps)
        [sampleInstance, sampleInstance2] "test" 1 :=
  translate_uses_primary_instance_only sampleBS sampleCfg (fun hyps => hyps)
    [sampleInstance] [sampleInstance, sampleInstance2] "test" 1 rfl

/-- C9: the throughput value logged after decoding a split equals the floor
of the hypothesis count divided by the elapsed wall-clock seconds, with
elapsed time assumed positive (a zero elapsed time would raise at the
logging layer, which is the only place the division occurs). -/
theorem throughput_is_floor {V L : Type} (bs : BeamSearch V L) (cfg : RunConfig)
    (filter : List String → List String) (inst : ModelInstance V L)
    (rest : List (ModelInstance V L)) (split : String) (elapsed : ℚ)
    (loader : L) (raw : List String)
    (hload : inst.get_loader split cfg.batch_size true = some loader)
    (hbs : bs inst loader inst.trg_vocab cfg.beam_size cfg.max_len
      cfg.avoid_double cfg.avoid_unk = some raw)
    (hpos : 0 < elapsed) :
    translate bs cfg filter (inst :: rest) split elapsed =
      some (filter raw, Int.floor ((raw.length : ℚ) / elapsed)) := by
  simp [translate, hload, hbs, hpos.ne']

/-- Witness for C9: one hypothesis in two seconds logs zero sentences per
second. -/
theorem throughput_is_floor_witness :
    translate sampleBS sampleCfg (fun hyps => hyps) [sampleInstance] "test" 2 =
      some (["hyp"], 0) := by
  have h := throughput_is_floor sampleBS sampleCfg (fun hyps => hyps) sampleInstance []
    "test" 2 () ["hyp"] rfl rfl (by norm_num)
  rw [h]
  norm_num

/-! Properties of split resolution and the filter stage. -/

/-- C6: the output filter stage maps every hypothesis list, including the
empty one, elementwise (1:1 and order-preserving, so lengths are equal),
and is the identity when filtering is disabled by configuration or when the
training configuration declares no filters. -/
theorem filter_stage_one_to_one (registry : String → String → String)
    (disable : Bool) (ef : String) :
    ∃ f : String → String,
      (∀ hyps : List String, selectFilter registry disable ef hyps = hyps.map f) ∧
      (∀ hyps : List String,
        (selectFilter registry disable ef hyps).length = hyps.length) ∧
      ((disable = true ∨ ef = "") →
        ∀ hyps : List String, selectFilter registry disable ef hyps = hyps) := by
  by_cases hcase : disable = true ∨ ef = ""
  · have hc : (disable || ef == "") = true := by
      rcases hcase with h | h <;> simp [h]
    refine ⟨fun s => s, ?_, ?_, ?_⟩
    · intro hyps
      simp [selectFilter, hc]
    · intro hyps
      simp [selectFilter, hc]
    · intro _ hyps
      simp [selectFilter, hc]
  · push_neg at hcase
    have hd : disable = false := by
      cases disable
      · rfl
      · exact absurd rfl hcase.1
    have he : (ef == "") = false := beq_eq_false_iff_ne.mpr hcase.2
    have hc : (disable || ef == "") = false := by simp [hd, he]
    refine ⟨fun h => (pySplit ef ',').foldl (fun s ident => registry ident s) h,
      ?_, ?_, ?_⟩
    · intro hyps
      simp [selectFilter, hc, FilterChain]
    · intro hyps
      simp [selectFilter, hc, FilterChain]
    · intro hcontra
      exact absurd hcontra (not_or.mpr ⟨hcase.1, hcase.2⟩)

/-- Witness for C6: disabled filtering is the identity on a concrete list. -/
theorem filter_stage_one_to_one_witness :
    selectFilter sampleRegistry true "xf" ["a", "b"] = ["a", "b"] := by
  obtain ⟨f, hmap, hlen, hid⟩ := filter_stage_one_to_one sampleRegistry true "xf"
  exact hid (Or.inl rfl) ["a", "b"]

/-- C3: an explicit comma-separated split string resolves to the string
split on commas in order; a source specification resolves to the single
split `new`, with each `key:path` pair parsed into a mapping that is stored
under the reserved `new_set` key of the primary instance's data options. -/
theorem split_resolution_correct {V L : Type}
    (registry : String → String → String) (cfg : RunConfig)
    (i0 : ModelInstance V L) (rest : List (ModelInstance V L))
    (splits source : String) (data : DataOptions)
    (dict : List (String × String)) :
    (resolveSplits "a,b,c" source data = some (["a", "b", "c"], data)) ∧
    (resolveSplits "" "src:in.txt" data =
      some (["new"], dictInsert data "new_set" [("src", "in.txt")])) ∧
    (splits ≠ "" → resolveSplits splits source data =
      some (pySplit splits ',', data)) ∧
    (parseSource source = some dict →
      resolveSplits "" source data =
        some (["new"], dictInsert data "new_set" dict)) ∧
    (cfg.splits = "" → cfg.source = source → parseSource source = some dict →
      sanity_check (i0 :: rest) = true →
      initTranslator registry cfg (i0 :: rest) =
        some { instances :=
                 { i0 with opts_data := dictInsert i0.opts_data "new_set" dict } :: rest,
               filter := selectFilter registry cfg.disable_filters i0.eval_filters,
               splits := ["new"] }) := by
  have hnil : ∀ d : DataOptions, ∀ src, parseSource src = some dict →
      resolveSplits "" src d = some (["new"], dictInsert d "new_set" dict) := by
    intro d src hp
    have hsrc : src ≠ "" := by
      intro he
      rw [he, show parseSource "" = none from by decide] at hp
      exact Option.noConfusion hp
    simp only [resolveSplits]
    rw [if_neg (by decide : ¬ ("" : String) ≠ ""), if_pos hsrc, hp]
    rfl
  refine ⟨?_, ?_, ?_, hnil data source, ?_⟩
  · simp only [resolveSplits]
    rw [if_pos (by decide : ("a,b,c" : String) ≠ "")]
    rw [show pySplit "a,b,c" ',' = ["a", "b", "c"] from by decide]
  · simp only [resolveSplits]
    rw [if_neg (by decide : ¬ ("" : String) ≠ ""),
      if_pos (by decide : ("src:in.txt" : String) ≠ "")]
    rw [show parseSource "src:in.txt" = some [("src", "in.txt")] from by decide]
    rfl
  · intro h
    simp only [resolveSplits]
    rw [if_pos h]
  · intro h1 h2 hp hsan
    simp only [initTranslator]
    rw [if_pos hsan, h1, h2, hnil i0.opts_data source hp]
    rfl

/-- Witness for C3 at concrete inputs for both resolution modes. -/
theorem split_resolution_correct_witness :
    resolveSplits "x,y" "k:v" [] = some (["x", "y"], []) ∧
    resolveSplits "" "k:v" [] = some (["new"], [("new_set", [("k", "v")])]) := by
  have h := split_resolution_correct (V := Unit) (L := Unit) sampleRegistry sampleCfg
    sampleInstance [] "x,y" "k:v" [] [("k", "v")]
  constructor
  · have h3 := h.2.2.1 (by decide : ("x,y" : String) ≠ "")
    rw [h3, show pySplit "x,y" ',' = ["x", "y"] from by decide]
  · have h4 := h.2.2.2.1 (by decide : parseSource "k:v" = some [("k", "v")])
    rw [h4, show dictInsert ([] : DataOptions) "new_set" [("k", "v")] =
      [("new_set", [("k", "v")])] from by decide]

/-- C10: when both a non-empty explicit splits string and a source
specification are supplied, the explicit splits string takes precedence:
the split list is derived from it, the source specification is ignored, and
the primary instance's data options are left unmodified. -/
theorem explicit_splits_take_precedence {V L : Type}
    (registry : String → String → String) (cfg : RunConfig)
    (instances : List (ModelInstance V L)) (st : TranslatorState V L)
    (h1 : cfg.splits ≠ "") :
    (∀ data : DataOptions,
      resolveSplits cfg.splits cfg.source data = some (pySplit cfg.splits ',', data)) ∧
    (initTranslator registry cfg instances = some st →
      st.instances = instances ∧ st.splits = pySplit cfg.splits ',') := by
  have hres : ∀ data : DataOptions,
      resolveSplits cfg.splits cfg.source data = some (pySplit cfg.splits ',', data) := by
    intro data
    simp only [resolveSplits]
    rw [if_pos h1]
  refine ⟨hres, ?_⟩
  intro hinit
  cases instances with
  | nil =>
    have hz : initTranslator registry cfg ([] : List (ModelInstance V L)) = none := by
      simp [initTranslator, sanity_check]
    rw [hz] at hinit
    exact Option.noConfusion hinit
  | cons i0 rest =>
    by_cases hsan : sanity_check (i0 :: rest) = true
    · have hval : initTranslator registry cfg (i0 :: rest) =
          some { instances := i0 :: rest,
                 filter := selectFilter registry cfg.disable_filters i0.eval_filters,
                 splits := pySplit cfg.splits ',' } := by
        simp only [initTranslator]
        rw [if_pos hsan, hres i0.opts_data]
        rfl
      rw [hval] at hinit
      have hst := Option.some.inj hinit
      rw [← hst]
      exact ⟨rfl, rfl⟩
    · have hz : initTranslator registry cfg (i0 :: rest) = none := by
        simp only [initTranslator]
        rw [if_neg hsan]
      rw [hz] at hinit
      exact Option.noConfusion hinit

/-- Witness for C10: a configuration carrying both a splits string and a
source specification resolves from the splits string and keeps the data
options empty. -/
theorem explicit_splits_take_precedence_witness :
    resolveSplits "test" "src:adhoc.txt" [] = some (["test"], []) := by
  have h := (explicit_splits_take_precedence sampleRegistry sampleCfgBoth
    [sampleInstance] ⟨[], fun hyps => hyps, []⟩ (by decide)).1 []
  have h2 : resolveSplits "test" "src:adhoc.txt" [] = some (pySplit "test" ',', []) := h
  rw [h2, show pySplit "test" ',' = ["test"] from by decide]

/-! Properties of the per-split loop and the output writer. -/

/-- C7: splits are processed strictly sequentially and the run is
total-or-nothing: the final filesystem carries exactly the dumps of the
longest prefix of splits whose translation (data loading plus search)
succeeds, in order, and the completion flag is set iff every split
succeeds; a failing split writes nothing and no later split is processed. -/
theorem run_sequential_total_or_nothing {V L : Type} (bs : BeamSearch V L)
    (cfg : RunConfig) (filter : List String → List String)
    (instances : List (ModelInstance V L)) (elapsedOf : String → ℚ) :
    ∀ (splits : List String) (fs : FS),
      runSplits bs cfg filter instances elapsedOf splits fs =
        (applyDumps bs cfg filter instances elapsedOf
          (splits.takeWhile (transOk bs cfg filter instances elapsedOf)) fs,
         splits.all (transOk bs cfg filter instances elapsedOf)) := by
  intro splits
  induction splits with
  | nil => intro fs; rfl
  | cons s rest ih =>
    intro fs
    cases htr : translate bs cfg filter instances s (elapsedOf s) with
    | none =>
      have hok : transOk bs cfg filter instances elapsedOf s = false := by
        simp [transOk, htr]
      have hstep : runSplits bs cfg filter instances elapsedOf (s :: rest) fs =
          (fs, false) := by
        simp only [runSplits]
        rw [htr]
      rw [hstep]
      simp [List.takeWhile_cons, List.all_cons, hok, applyDumps]
    | some pr =>
      obtain ⟨hyps, tp⟩ := pr
      have hok : transOk bs cfg filter instances elapsedOf s = true := by
        simp [transOk, htr]
      have hstep : runSplits bs cfg filter instances elapsedOf (s :: rest) fs =
          runSplits bs cfg filter instances elapsedOf rest (dump cfg fs hyps s) := by
        simp only [runSplits]
        rw [htr]
      have happ : applyDumps bs cfg filter instances elapsedOf
          (s :: rest.takeWhile (transOk bs cfg filter instances elapsedOf)) fs =
          applyDumps bs cfg filter instances elapsedOf
            (rest.takeWhile (transOk bs cfg filter instances elapsedOf))
            (dump cfg fs hyps s) := by
        simp only [applyDumps, List.foldl_cons]
        rw [htr]
      rw [hstep, ih (dump cfg fs hyps s)]
      simp only [List.takeWhile_cons, List.all_cons, hok, if_true, Bool.true_and]
      rw [happ]

/-- Character list of the literal newline. -/
theorem data_newline : ("\n" : String).data = ['\n'] := by decide

/-- Character list of the empty string literal. -/
theorem data_empty : ("" : String).data = [] := rfl

/-- Characters of the accumulated file body: the written prefix followed by
each hypothesis and a newline. -/
theorem dumpContent_foldl (hyps : List String) (acc : String) :
    (hyps.foldl (fun a line => a ++ (line ++ "\n")) acc).data =
      acc.data ++ (hyps.map (fun h => h.data ++ ['\n'])).flatten := by
  induction hyps generalizing acc with
  | nil => simp
  | cons h t ih =>
    simp only [List.foldl_cons, List.map_cons, List.flatten_cons]
    rw [ih]
    simp [String.data_append, data_newline, List.append_assoc]

/-- Characters of the file body written by `dump`. -/
theorem dumpContent_data (hyps : List String) :
    (dumpContent hyps).data = (hyps.map (fun h => h.data ++ ['\n'])).flatten := by
  simpa [dumpContent, data_empty] using dumpContent_foldl hyps ""

/-- The file body has one newline per hypothesis when the hypotheses are
newline-free. -/
theorem dumpContent_newline_count : ∀ hyps : List String,
    (∀ h ∈ hyps, ('\n') ∉ h.data) →
    ((dumpContent hyps).data).count '\n' = hyps.length := by
  intro hyps
  induction hyps with
  | nil => intro _; simp [dumpContent_data]
  | cons h t ih =>
    intro hfree
    rw [dumpContent_data]
    simp only [List.map_cons, List.flatten_cons, List.count_append, List.length_cons]
    rw [List.count_eq_zero.mpr (hfree h (List.mem_cons_self h t))]
    have ht := ih (fun x hx => hfree x (List.mem_cons_of_mem h hx))
    rw [dumpContent_data] at ht
    rw [ht, show ((['\n'] : List Char).count '\n') = 1 from by decide]
    omega

/-- Splitting at a separator that does not occur in the first block peels
off exactly that block. -/
theorem splitCharAux_sep : ∀ h : List Char, ('\n') ∉ h → ∀ rest : List Char,
    splitCharAux '\n' (h ++ '\n' :: rest) = h :: splitCharAux '\n' rest := by
  intro h
  induction h with
  | nil =>
    intro _ rest
    simp only [List.nil_append, splitCharAux]
    simp
  | cons x t ih =>
    intro hfree rest
    have hx : x ≠ '\n' := fun he => hfree (he ▸ List.mem_cons_self x t)
    have ht : ('\n') ∉ t := fun hm => hfree (List.mem_cons_of_mem x hm)
    simp only [List.cons_append, splitCharAux, List.append_eq]
    rw [if_neg hx, ih ht rest]

/-- Splitting the file body on newlines recovers the hypotheses in order
(with the empty block after the final newline), when the hypotheses are
newline-free. -/
theorem dump_lines : ∀ hyps : List String,
    (∀ h ∈ hyps, ('\n') ∉ h.data) →
    splitCharAux '\n' (dumpContent hyps).data = hyps.map String.data ++ [[]] := by
  intro hyps
  induction hyps with
  | nil =>
    intro _
    rw [dumpContent_data]
    simp [splitCharAux]
  | cons h t ih =>
    intro hfree
    rw [dumpContent_data]
    simp only [List.map_cons, List.flatten_cons, List.append_assoc, List.singleton_append]
    rw [splitCharAux_sep h.data (hfree h (List.mem_cons_self h t))]
    have ht := ih (fun x hx => hfree x (List.mem_cons_of_mem h hx))
    rw [dumpContent_data] at ht
    rw [ht]
    rfl

/-- C8: for every split name and hypothesis list, `dump` performs exactly
one write: the derived path now holds the body formed by each hypothesis
followed by a newline, in input order, whatever the path held before; every
other path is untouched; and for newline-free hypotheses the body has
exactly one line per hypothesis (the embedding is at the character level;
the byte encoding is outside it). -/
theorem dump_write_contract (cfg : RunConfig) (fs : FS) (hyps : List String)
    (split : String) :
    dump cfg fs hyps split
        (dumpPath cfg.output split cfg.beam_size cfg.avoid_double cfg.avoid_unk) =
      some (dumpContent hyps) ∧
    (∀ p, p ≠ dumpPath cfg.output split cfg.beam_size cfg.avoid_double cfg.avoid_unk →
      dump cfg fs hyps split p = fs p) ∧
    (dumpContent hyps).data = (hyps.map (fun h => h.data ++ ['\n'])).flatten ∧
    ((∀ h ∈ hyps, ('\n') ∉ h.data) →
      ((dumpContent hyps).data).count '\n' = hyps.length ∧
      splitCharAux '\n' (dumpContent hyps).data = hyps.map String.data ++ [[]]) := by
  refine ⟨?_, ?_, dumpContent_data hyps,
    fun hfree => ⟨dumpContent_newline_count hyps hfree, dump_lines hyps hfree⟩⟩
  · simp [dump, writeFile]
  · intro p hp
    simp [dump, writeFile, hp]

/-- Witness for C8: a concrete dump overwrites the old content and yields
the two expected lines. -/
theorem dump_write_contract_witness :
    dump sampleCfg (fun _ => some "old") ["ab", "cd"] "test"
        (dumpPath "out" "test" 2 false false) = some (dumpContent ["ab", "cd"]) ∧
    splitCharAux '\n' (dumpContent ["ab", "cd"]).data =
      [['a', 'b'], ['c', 'd'], []] := by
  have h := dump_write_contract sampleCfg (fun _ => some "old") ["ab", "cd"] "test"
  constructor
  · exact h.1
  · have h2 := (h.2.2.2 (by decide)).2
    rw [h2]
    decide

end Nmtpy
